import Mathlib

/-!
Shallow embedding of the timer-state core of the uni-cycle repository
(laundry machine timer): the `Machine` entity (src/src/models/Machine.ts;
the `FrontendMachine` class in src/unnamed/part_007 is line-for-line
identical for every method embedded here), the backend repository/service
reserve path (src/src/database/MachineRepository.ts,
src/src/services/MachineService.ts), the frontend localStorage-backed
service (src/unnamed/part_007), the expiration sweeper
(`TimerService.checkExpiredTimers`, src/unnamed/part_009), the cross-tab
sync guard (`StorageEventService`, src/src/frontend/ThemeManager.ts), the
SSE broadcaster (src/src/services/StatusBroadcastService.ts) and the
storage read path (`LocalStorageService`, src/src/frontend/__tests__/Machine.test.ts).

Conventions: JS numbers holding epoch timestamps are embedded as `Int`.
`Date.now()` is passed in as a parameter `nowMs`; the recurring source
expression `Math.floor(Date.now() / 1000)` is `nowMs.fdiv 1000` (floor
division). Durations are embedded as `ℚ` so that the source's
`Number.isInteger` check is expressible (`d.den = 1`). Methods that can
`throw` return `Except String`; mutation of `this` becomes a returned
updated value.
-/

set_option autoImplicit false

namespace UniCycle

/-- JS truthiness of the optional numeric field `timerEndTime`
(`!this.timerEndTime` is true when the field is `undefined` or `0`). -/
def timerTruthy : Option Int → Bool
  | none => false
  | some v => v != 0

/-- The recurring blank-name check `name.trim().length === 0` (also
covering the preceding falsy check `!name`): a string trims to the empty
string exactly when every character is whitespace. Stated directly on
the characters because `String.trim` has no kernel reduction. -/
def isBlank (s : String) : Bool := s.data.all (fun c => c.isWhitespace)

/-- `ApplianceRecord` / `MachineData`: the stored shape of a machine
(fields of `Machine` in src/src/models/Machine.ts and of `MachineData` in
the frontend storage layer). No status field is stored. -/
structure Machine where
  id : Int
  name : String
  timerEndTime : Option Int
  createdAt : Int
  updatedAt : Int
deriving Repr, DecidableEq

/-- The two derived statuses `'available' | 'in-use'`. -/
inductive StatusVal where
  | available
  | inUse
deriving Repr, DecidableEq

/-- `MachineStatus` as returned by `toStatus()` for API responses. -/
structure MachineStatus where
  id : Int
  name : String
  status : StatusVal
  remainingTimeMs : Option Int
deriving Repr, DecidableEq

/-- `get status()` (Machine.ts lines 27-34): `'available'` when
`timerEndTime` is falsy, otherwise `'in-use'` iff `timerEndTime > now`. -/
def Machine.status (m : Machine) (now : Int) : StatusVal :=
  if !timerTruthy m.timerEndTime then .available
  else if m.timerEndTime.getD 0 > now then .inUse else .available

/-- `getRemainingTimeMs()` (Machine.ts lines 156-165):
`max(0, (timerEndTime - now) * 1000)`, `0` when the field is falsy. -/
def Machine.getRemainingTimeMs (m : Machine) (now : Int) : Int :=
  if !timerTruthy m.timerEndTime then 0
  else max 0 ((m.timerEndTime.getD 0 - now) * 1000)

/-- `toStatus()` (Machine.ts lines 64-73): the `remainingTimeMs` field is
present only when the computed remaining time is `> 0`. -/
def Machine.toStatus (m : Machine) (now : Int) : MachineStatus :=
  let remainingTimeMs := m.getRemainingTimeMs now
  { id := m.id
    name := m.name
    status := m.status now
    remainingTimeMs := if remainingTimeMs > 0 then some remainingTimeMs else none }

/-- `validate()` (Machine.ts lines 78-98). `!this.name` (empty string) is
subsumed by the trimmed-length check. -/
def Machine.validate (m : Machine) : Except String Unit := do
  if isBlank m.name then
    throw "Machine name is required"
  if m.name.length > 100 then
    throw "Machine name must be 100 characters or less"
  if timerTruthy m.timerEndTime && m.timerEndTime.getD 0 ≤ 0 then
    throw "Timer end time must be a positive timestamp"
  if m.createdAt ≤ 0 || m.updatedAt ≤ 0 then
    throw "Created and updated timestamps must be positive"
  if m.updatedAt < m.createdAt then
    throw "Updated timestamp cannot be before created timestamp"
  pure ()

/-- `new Machine(data)` / `new FrontendMachine(data)`: the constructor
copies the fields and runs `validate()`, throwing on bad data. -/
def Machine.fromData (data : Machine) : Except String Machine := do
  data.validate
  pure data

/-- `static validateTimerDuration(durationMinutes)` (Machine.ts lines
103-115): integer in `[1, 120]`. -/
def Machine.validateTimerDuration (d : ℚ) : Except String Unit := do
  if d.den != 1 then
    throw "Timer duration must be an integer"
  if d < 1 then
    throw "Timer duration must be at least 1 minute"
  if d > 120 then
    throw "Timer duration cannot exceed 120 minutes (2 hours)"
  pure ()

/-- `setTimer(durationMinutes)` (Machine.ts lines 120-129, identical to
`FrontendMachine.setTimer` in part_007 lines 114-122): validates the
duration, sets `timerEndTime = now + durationMinutes * 60` and
`updatedAt = now` (`now = Math.floor(Date.now() / 1000)`), then
re-validates. After validation the duration is an integer, so the product
is `d.num * 60`. Timer override is allowed: no in-use check. -/
def Machine.setTimer (m : Machine) (d : ℚ) (now : Int) : Except String Machine := do
  Machine.validateTimerDuration d
  let m' := { m with timerEndTime := some (now + d.num * 60), updatedAt := now }
  m'.validate
  pure m'

/-- `clearTimer()` (Machine.ts lines 134-139): clears `timerEndTime`,
sets `updatedAt = now`, re-validates. -/
def Machine.clearTimer (m : Machine) (now : Int) : Except String Machine := do
  let m' := { m with timerEndTime := none, updatedAt := now }
  m'.validate
  pure m'

/-- `isTimerExpired()` (Machine.ts lines 144-151): `false` when the field
is falsy, otherwise `now >= timerEndTime`. -/
def Machine.isTimerExpired (m : Machine) (now : Int) : Bool :=
  if !timerTruthy m.timerEndTime then false
  else now ≥ m.timerEndTime.getD 0

/-- `isAvailable()` (Machine.ts lines 178-180). -/
def Machine.isAvailable (m : Machine) (now : Int) : Bool :=
  (m.status now == .available) || m.isTimerExpired now

/-- The record invariant of the spec data model: `updatedAt ≥ createdAt`,
both positive. -/
def Machine.invariantHolds (m : Machine) : Prop :=
  m.createdAt ≤ m.updatedAt ∧ 0 < m.createdAt ∧ 0 < m.updatedAt

instance (m : Machine) : Decidable m.invariantHolds := by
  unfold Machine.invariantHolds; infer_instance

/-! ## Backend persistence layer (src/src/database/MachineRepository.ts)

The `machines` table row and the repository methods used by the reserve
path. The SQLite store is embedded as a `List MachineRow`; `UPDATE ...
WHERE id = ?` maps every row with the matching id, and `result.changes`
counts the matched rows. -/

/-- A `machines` table row (`MachineRow`). -/
structure MachineRow where
  id : Int
  name : String
  timer_end_time : Option Int
  created_at : Int
  updated_at : Int
deriving Repr, DecidableEq

/-- `row.timer_end_time || undefined` in `Machine.fromRow`: JS coerces
both `null` and `0` to `undefined`. -/
def rowTimerField : Option Int → Option Int
  | none => none
  | some v => if v == 0 then none else some v

/-- `static fromRow(row)` (Machine.ts lines 39-47): builds the entity and
runs the constructor's `validate()`. -/
def Machine.fromRow (r : MachineRow) : Except String Machine :=
  Machine.fromData
    { id := r.id
      name := r.name
      timerEndTime := rowTimerField r.timer_end_time
      createdAt := r.created_at
      updatedAt := r.updated_at }

/-- `MachineRepository.findById`: `SELECT * FROM machines WHERE id = ?`
returns the first matching row; a found row goes through
`Machine.fromRow`, whose validation errors propagate. -/
def MachineRepository.findById (store : List MachineRow) (id : Int) :
    Except String (Option Machine) :=
  match store.find? (fun r => r.id == id) with
  | none => pure none
  | some r => do
      let m ← Machine.fromRow r
      pure (some m)

/-- `MachineRepository.setTimer` (MachineRepository.ts lines 407-429):
computes `timerEndTime = now + durationMinutes * 60`, runs
`UPDATE machines SET timer_end_time = ?, updated_at = ? WHERE id = ?`,
throws when no row changed, then re-reads the machine. The duration
reaching the repository has already been validated as an integer, so it
is taken here as an `Int`. -/
def MachineRepository.setTimer (store : List MachineRow) (machineId : Int)
    (durationMinutes : Int) (now : Int) :
    Except String (List MachineRow × Machine) := do
  let timerEndTime := now + durationMinutes * 60
  let store' := store.map fun r =>
    if r.id == machineId then { r with timer_end_time := some timerEndTime, updated_at := now }
    else r
  let changes := (store.filter (fun r => r.id == machineId)).length
  if changes == 0 then
    throw "Machine not found"
  match ← MachineRepository.findById store' machineId with
  | none => throw "Failed to retrieve updated machine"
  | some updated => pure (store', updated)

/-- The distinct failure kinds of the service layer (the source wraps all
of them in generic `Error` objects whose messages distinguish them). -/
inductive SvcErr where
  | invalidId
  | invalidDuration
  | notFound
  | dataError (msg : String)
deriving Repr, DecidableEq

/-- `validateMachineId` (both service versions): positive integer. The
`Number.isInteger` half is definitionally true for an `Int`. -/
def validateMachineId (id : Int) : Bool := 0 < id

/-- `MachineService.setTimer`, backend override version
(src/src/services/MachineService.ts lines 299-319): validate the id and
duration, check the machine exists (constructing it validates the row),
then delegate to the repository with no availability check
(`// Allow timer override`). Returns the resulting store together with
the outcome; every throw site leaves the store untouched. -/
def MachineService.setTimer (store : List MachineRow) (machineId : Int)
    (durationMinutes : ℚ) (now : Int) :
    List MachineRow × Except SvcErr MachineStatus :=
  if !validateMachineId machineId then (store, .error .invalidId)
  else match Machine.validateTimerDuration durationMinutes with
  | .error _ => (store, .error .invalidDuration)
  | .ok _ =>
    match MachineRepository.findById store machineId with
    | .error e => (store, .error (.dataError e))
    | .ok none => (store, .error .notFound)
    | .ok (some _) =>
      match MachineRepository.setTimer store machineId durationMinutes.num now with
      | .error e => (store, .error (.dataError e))
      | .ok (store', updated) => (store', .ok (updated.toStatus now))

/-! ## Frontend storage layer (src/unnamed/part_007 and the
`LocalStorageService` class of src/src/frontend/__tests__/Machine.test.ts)

The localStorage-backed collection, once read and decoded, is a
`List Machine` (the `MachineData` shape has exactly the fields of
`Machine`). -/

/-- The per-entry checks of `validateMachinesData` restricted to data
that already has the `MachineData` shape: positive id, non-blank name,
`timerEndTime` positive when present, positive timestamps. -/
def storedMachineValid (m : Machine) : Bool :=
  0 < m.id && !isBlank m.name &&
    (match m.timerEndTime with
     | none => true
     | some t => 0 < t) &&
    0 < m.createdAt && 0 < m.updatedAt

/-- `machines.findIndex(...)` followed by `machines[index] = u`: replace
the first element with the given id, `none` when absent. -/
def replaceFirst (store : List Machine) (targetId : Int) (u : Machine) :
    Option (List Machine) :=
  match store with
  | [] => none
  | m :: rest =>
    if m.id == targetId then some (u :: rest)
    else (replaceFirst rest targetId u).map (m :: ·)

/-- `LocalStorageService.updateMachine`: find the machine, overwrite the
entry with `{ ...updatedMachine, updatedAt: Date.now() }` (milliseconds),
and `saveMachines`, which re-runs `validateMachinesData` on the whole
list before writing. The quota-exceeded path is not modelled. -/
def LocalStorageService.updateMachine (store : List Machine) (updated : Machine)
    (nowMs : Int) : Except String (List Machine) := do
  match replaceFirst store updated.id { updated with updatedAt := nowMs } with
  | none => throw "Machine not found"
  | some store' =>
      if !store'.all storedMachineValid then
        throw "Machines data failed validation"
      pure store'

/-- The cross-tab broadcasts issued through `StorageEventService` by the
frontend service and sweeper. -/
inductive BroadcastMsg where
  | timerSet (machineId : Int) (machine : MachineStatus)
  | machineUpdated (machineId : Int) (machine : MachineStatus)
  | timerExpired (machineId : Int) (machine : MachineStatus)
deriving Repr, DecidableEq

/-- Result of a frontend service call: the store after the call, the
outcome, and the broadcasts sent to other tabs. -/
structure SvcResult where
  store : List Machine
  outcome : Except SvcErr MachineStatus
  broadcasts : List BroadcastMsg
deriving Repr

/-- Frontend `MachineService.setTimer` (part_007 lines 241-269): validate
id and duration, look the machine up (`getMachineById` is a `find` over
the decoded collection), construct a `FrontendMachine` (validates),
`setTimer` on it (`now` in seconds), save through `updateMachine`, then
broadcast `timer_set`. Every failure path returns before any write. -/
def FrontendMachineService.setTimer (store : List Machine) (machineId : Int)
    (durationMinutes : ℚ) (nowMs : Int) : SvcResult :=
  let nowSec := nowMs.fdiv 1000
  if !validateMachineId machineId then ⟨store, .error .invalidId, []⟩
  else match Machine.validateTimerDuration durationMinutes with
  | .error _ => ⟨store, .error .invalidDuration, []⟩
  | .ok _ =>
    match store.find? (fun m => m.id == machineId) with
    | none => ⟨store, .error .notFound, []⟩
    | some data =>
      match Machine.fromData data with
      | .error e => ⟨store, .error (.dataError e), []⟩
      | .ok machine =>
        match machine.setTimer durationMinutes nowSec with
        | .error e => ⟨store, .error (.dataError e), []⟩
        | .ok machine' =>
          match LocalStorageService.updateMachine store machine' nowMs with
          | .error e => ⟨store, .error (.dataError e), []⟩
          | .ok store' =>
            let machineStatus := machine'.toStatus nowSec
            ⟨store', .ok machineStatus, [.timerSet machineId machineStatus]⟩

/-- Frontend `MachineService.clearTimer` (part_007 lines 274-300): same
shape as `setTimer` with `clearTimer` on the entity and a
`machine_updated` broadcast. -/
def FrontendMachineService.clearTimer (store : List Machine) (machineId : Int)
    (nowMs : Int) : SvcResult :=
  let nowSec := nowMs.fdiv 1000
  if !validateMachineId machineId then ⟨store, .error .invalidId, []⟩
  else match store.find? (fun m => m.id == machineId) with
  | none => ⟨store, .error .notFound, []⟩
  | some data =>
    match Machine.fromData data with
    | .error e => ⟨store, .error (.dataError e), []⟩
    | .ok machine =>
      match machine.clearTimer nowSec with
      | .error e => ⟨store, .error (.dataError e), []⟩
      | .ok machine' =>
        match LocalStorageService.updateMachine store machine' nowMs with
        | .error e => ⟨store, .error (.dataError e), []⟩
        | .ok store' =>
          let machineStatus := machine'.toStatus nowSec
          ⟨store', .ok machineStatus, [.machineUpdated machineId machineStatus]⟩

/-! ## Expiration sweeper (`TimerService.checkExpiredTimers`,
src/unnamed/part_009 lines 109-146) -/

/-- The status snapshot placed in a `timer_expired` event
(`emitTimerExpiredEvent`, part_009 lines 243-268): the machine is now
available and carries no remaining time. -/
def expiredStatusOf (m : Machine) : MachineStatus :=
  { id := m.id, name := m.name, status := .available, remainingTimeMs := none }

/-- The sweep condition `machine.timerEndTime && machine.timerEndTime <= now`
(part_009 line 117): the field is truthy and has passed `now` (seconds). -/
def TimerService.isExpiredAt (nowSec : Int) (machine : Machine) : Bool :=
  timerTruthy machine.timerEndTime && machine.timerEndTime.getD 0 ≤ nowSec

/-- One pass of `machines.map(...)` in `checkExpiredTimers`: each machine
satisfying the sweep condition is replaced by a copy with the timer
removed and `updatedAt = Date.now()` (milliseconds — the source does not
divide here), emitting one `timer_expired` event; every other machine is
returned as-is. The boolean accumulates `hasExpiredTimers`. The triple is
(updated machines, events in emission order, flag). -/
def TimerService.sweepStep (nowMs nowSec : Int)
    (acc : List Machine × List BroadcastMsg × Bool) (machine : Machine) :
    List Machine × List BroadcastMsg × Bool :=
  if TimerService.isExpiredAt nowSec machine then
    let updatedMachine := { machine with timerEndTime := none, updatedAt := nowMs }
    (acc.1 ++ [updatedMachine],
     acc.2.1 ++ [.timerExpired machine.id (expiredStatusOf updatedMachine)],
     true)
  else
    (acc.1 ++ [machine], acc.2.1, acc.2.2)

/-- `TimerService.checkExpiredTimers` (part_009 lines 109-146): reads the
machines, computes `now = Math.floor(Date.now() / 1000)`, maps over them
clearing expired timers and emitting events, and calls
`saveMachines(updatedMachines)` iff `hasExpiredTimers` was set. Returns
(machines as written back, events, whether a write happened). -/
def TimerService.checkExpiredTimers (machines : List Machine) (nowMs : Int) :
    List Machine × List BroadcastMsg × Bool :=
  let nowSec := nowMs.fdiv 1000
  machines.foldl (TimerService.sweepStep nowMs nowSec) ([], [], false)

/-! ## Cross-tab sync guard (`StorageEventService`,
src/src/frontend/ThemeManager.ts lines 104-504)

An incoming storage event's `newValue` is parsed with `JSON.parse`; the
parsed value is an arbitrary JSON value whose fields may be missing or of
the wrong type. A field embedded as `Option τ` is `none` when it is
absent or not of JS type τ. -/

/-- The `machine` property of a sync event: falsy (validation skipped),
truthy non-object, or an object with the three checked fields. -/
inductive RawMachineVal where
  | nonObject
  | obj (id : Option Int) (name : Option String) (status : Option String)
deriving Repr, DecidableEq

/-- The fields of a parsed sync event object (`StorageSyncEvent` shape,
possibly malformed). -/
structure RawSyncEvent where
  type : Option String
  machineId : Option Int
  machine : Option RawMachineVal
  timestamp : Option Int
  tabId : Option String
deriving Repr, DecidableEq

/-- A successfully parsed JSON value: either not an object (or `null`) —
every property access yields `undefined` — or an event object. -/
inductive ParsedJson where
  | nonObject
  | obj (e : RawSyncEvent)
deriving Repr, DecidableEq

/-- `syncEvent.tabId` as seen by `handleStorageEvent`. -/
def ParsedJson.tabIdOf : ParsedJson → Option String
  | .nonObject => none
  | .obj e => e.tabId

/-- `syncEvent.timestamp` as seen by `handleStorageEvent`. -/
def ParsedJson.timestampOf : ParsedJson → Option Int
  | .nonObject => none
  | .obj e => e.timestamp

/-- `isValidSyncEvent(event)` (ThemeManager.ts lines 431-465): object
check, `type` in the known set, positive numeric `timestamp`, non-empty
string `tabId`, and for non-reset events a positive numeric `machineId`
plus, when `machine` is truthy, an object with numeric `id`, string
`name` and a status in `{'available', 'in-use'}`. -/
def StorageEventService.isValidSyncEvent (v : ParsedJson) : Bool :=
  match v with
  | .nonObject => false
  | .obj e =>
    (match e.type with
     | some t => ["timer_set", "timer_expired", "machine_updated", "machines_reset"].contains t
     | none => false) &&
    (match e.timestamp with
     | some ts => 0 < ts
     | none => false) &&
    (match e.tabId with
     | some tid => tid.length != 0
     | none => false) &&
    (if e.type == some "machines_reset" then true
     else
       (match e.machineId with
        | some mid => 0 < mid
        | none => false) &&
       (match e.machine with
        | none => true
        | some .nonObject => false
        | some (.obj mid mname mstatus) =>
          mid.isSome && mname.isSome &&
            (mstatus == some "available" || mstatus == some "in-use")))

/-- Observer-local guard state: this tab's id and
`lastProcessedEventTime` (starts at `Date.now()` when listening starts). -/
structure GuardState where
  tabId : String
  lastProcessedEventTime : Int
deriving Repr, DecidableEq

/-- What `handleStorageEvent` receives: an event for another key, a
removal/clear with falsy `newValue`, a `newValue` that `JSON.parse`
rejects (the surrounding try/catch swallows the exception), or a parsed
JSON value. -/
inductive StorageEventInput where
  | otherKey
  | noNewValue
  | parseError
  | parsed (v : ParsedJson)
deriving Repr, DecidableEq

/-- `handleStorageEvent` (ThemeManager.ts lines 384-426): ignore other
keys and removals; parse; drop events from this tab; drop events with
`timestamp <= lastProcessedEventTime` (a missing or non-numeric timestamp
makes this JS comparison false, so such events fall through to
validation); drop invalid events; otherwise advance
`lastProcessedEventTime` and emit to listeners. The returned list holds
the events delivered to listeners (`emitEvent`); listener exceptions are
caught in the source and do not affect the state. -/
def StorageEventService.handleStorageEvent (s : GuardState)
    (input : StorageEventInput) : GuardState × List ParsedJson :=
  match input with
  | .otherKey => (s, [])
  | .noNewValue => (s, [])
  | .parseError => (s, [])
  | .parsed v =>
    let stale : Bool :=
      match v.timestampOf with
      | some ts => ts ≤ s.lastProcessedEventTime
      | none => false
    if v.tabIdOf == some s.tabId then (s, [])
    else if stale then (s, [])
    else if !StorageEventService.isValidSyncEvent v then (s, [])
    else ({ s with lastProcessedEventTime := v.timestampOf.getD 0 }, [v])

/-! ## SSE broadcaster (`StatusBroadcastService`,
src/src/services/StatusBroadcastService.ts)

A connected client is its id plus whether `response.write` succeeds for
the broadcast being modelled (`writeOk = false` means the write throws). -/

/-- An entry of the `clients` map. -/
structure SSEClient where
  id : String
  writeOk : Bool
deriving Repr, DecidableEq

/-- `removeClient(clientId)` (StatusBroadcastService.ts lines 63-74):
when present, `response.end()` (errors swallowed) and `Map.delete`. -/
def StatusBroadcastService.removeClient (clients : List SSEClient)
    (clientId : String) : List SSEClient :=
  match clients.find? (fun c => c.id == clientId) with
  | some _ => clients.eraseP (fun c => c.id == clientId)
  | none => clients

/-- One iteration of the broadcast loop: `try sendToClient` — a
successful write records delivery, a throwing write records the client id
in `clientsToRemove` (the `catch` means nothing propagates). -/
def StatusBroadcastService.sendStep (acc : List String × List String)
    (c : SSEClient) : List String × List String :=
  if c.writeOk then (acc.1 ++ [c.id], acc.2) else (acc.1, acc.2 ++ [c.id])

/-- `broadcastToAllClients(message)` (StatusBroadcastService.ts lines
148-162): attempt `sendToClient` on every client in iteration order; a
throwing write lands the client in `clientsToRemove` instead of
propagating; afterwards each collected id is removed. Returns the
remaining client set, the ids written successfully, and the removed ids. -/
def StatusBroadcastService.broadcastToAllClients (clients : List SSEClient) :
    List SSEClient × List String × List String :=
  let sent := clients.foldl StatusBroadcastService.sendStep ([], [])
  (sent.2.foldl StatusBroadcastService.removeClient clients, sent.1, sent.2)

/-! ## Storage read path (`LocalStorageService.getMachines`,
src/src/frontend/__tests__/Machine.test.ts lines 469-486 and
`validateMachinesData`, lines 639-669)

The raw stored value under `'laundry-machines'` and its decode. A machine
entry in parsed JSON may be malformed in shape, so its fields are raw. -/

/-- One parsed array entry: not an object (or `null`), or an object whose
fields may be absent or of the wrong type. `timerEndTime` distinguishes
absent (valid), present non-number (invalid) and present number. -/
inductive RawEntry where
  | nonObject
  | obj (id : Option Int) (name : Option String) (timerEndTime : Option (Option Int))
      (createdAt : Option Int) (updatedAt : Option Int)
deriving Repr, DecidableEq

/-- A successfully parsed stored value: an array of entries or a
non-array JSON value. -/
inductive ParsedMachines where
  | notArray
  | array (entries : List RawEntry)
deriving Repr, DecidableEq

/-- The stored value under the machines key: absent (or empty string),
text `JSON.parse` throws on, or parsed JSON. -/
inductive StoredValue where
  | absent
  | unparsable
  | parsed (v : ParsedMachines)
deriving Repr, DecidableEq

/-- `validateMachinesData(machines)` (lines 639-669) as a predicate: the
source throws on the first violation, the boolean is `true` iff it does
not throw. -/
def LocalStorageService.validateMachinesData (v : ParsedMachines) : Bool :=
  match v with
  | .notArray => false
  | .array entries =>
    entries.all fun entry =>
      match entry with
      | .nonObject => false
      | .obj id name timerEndTime createdAt updatedAt =>
        (match id with
         | some i => 0 < i
         | none => false) &&
        (match name with
         | some n => !isBlank n
         | none => false) &&
        (match timerEndTime with
         | none => true
         | some none => false
         | some (some t) => 0 < t) &&
        (match createdAt with
         | some c => 0 < c
         | none => false) &&
        (match updatedAt with
         | some u => 0 < u
         | none => false)

/-- A validated entry coerced to the `MachineData` shape (`JSON.parse(data)
as MachineData[]` — the cast is just the identity on well-formed data;
the defaults below are only reached on entries validation has rejected). -/
def coerceEntry : RawEntry → Machine
  | .nonObject => { id := 0, name := "", timerEndTime := none, createdAt := 0, updatedAt := 0 }
  | .obj id name timerEndTime createdAt updatedAt =>
    { id := id.getD 0
      name := name.getD ""
      timerEndTime :=
        match timerEndTime with
        | some (some t) => some t
        | _ => none
      createdAt := createdAt.getD 0
      updatedAt := updatedAt.getD 0 }

/-- `DEFAULT_MACHINES` (lines 383-389): five machines whose timestamps
are the `Date.now()` (milliseconds) evaluated when the class was loaded,
passed here as `t0`. -/
def LocalStorageService.DEFAULT_MACHINES (t0 : Int) : List Machine :=
  [ { id := 1, name := "Washer 1", timerEndTime := none, createdAt := t0, updatedAt := t0 },
    { id := 2, name := "Washer 2", timerEndTime := none, createdAt := t0, updatedAt := t0 },
    { id := 3, name := "Dryer 1", timerEndTime := none, createdAt := t0, updatedAt := t0 },
    { id := 4, name := "Dryer 2", timerEndTime := none, createdAt := t0, updatedAt := t0 },
    { id := 5, name := "Dryer 3", timerEndTime := none, createdAt := t0, updatedAt := t0 } ]

/-- `getMachines()` (lines 469-486): absent data initialises and returns
the defaults (even when the initialising `saveMachines` throws, the catch
returns the defaults); a `JSON.parse` or `validateMachinesData` failure
is caught and yields the defaults; otherwise the parsed machines are
returned as-is. -/
def LocalStorageService.getMachines (stored : StoredValue) (t0 : Int) : List Machine :=
  match stored with
  | .absent => LocalStorageService.DEFAULT_MACHINES t0
  | .unparsable => LocalStorageService.DEFAULT_MACHINES t0
  | .parsed v =>
    if LocalStorageService.validateMachinesData v then
      match v with
      | .notArray => LocalStorageService.DEFAULT_MACHINES t0
      | .array entries => entries.map coerceEntry
    else LocalStorageService.DEFAULT_MACHINES t0

/-! ## Helper lemmas -/

lemma validate_ok_iff (m : Machine) :
    m.validate = .ok () ↔
      (isBlank m.name = false ∧ m.name.length ≤ 100 ∧
       (∀ e, m.timerEndTime = some e → 0 ≤ e) ∧
       0 < m.createdAt ∧ 0 < m.updatedAt ∧ m.createdAt ≤ m.updatedAt) := by
  cases ht : m.timerEndTime <;>
    simp [Machine.validate, timerTruthy, ht, bind, Except.bind, pure, Except.pure,
      throw, throwThe, MonadExceptOf.throw] <;>
    split_ifs <;> simp_all <;> omega

lemma validateTimerDuration_ok_iff (d : ℚ) :
    Machine.validateTimerDuration d = .ok () ↔ (d.den = 1 ∧ 1 ≤ d ∧ d ≤ 120) := by
  simp [Machine.validateTimerDuration, bind, Except.bind, pure, Except.pure,
    throw, throwThe, MonadExceptOf.throw]
  split_ifs <;> simp_all

lemma setTimer_ok_iff (m : Machine) (d : ℚ) (now : Int) (m' : Machine) :
    m.setTimer d now = .ok m' ↔
      (Machine.validateTimerDuration d = .ok () ∧
       m' = { m with timerEndTime := some (now + d.num * 60), updatedAt := now } ∧
       m'.validate = .ok ()) := by
  unfold Machine.setTimer
  cases hv : Machine.validateTimerDuration d with
  | error e =>
    constructor
    · intro h; simp [bind, Except.bind] at h
    · rintro ⟨h1, -, -⟩; cases h1
  | ok u =>
    obtain rfl : u = () := rfl
    cases hw : Machine.validate { m with timerEndTime := some (now + d.num * 60), updatedAt := now } with
    | error e =>
      constructor
      · intro h; simp [bind, Except.bind, hw] at h
      · rintro ⟨-, rfl, h3⟩; rw [hw] at h3; cases h3
    | ok u' =>
      obtain rfl : u' = () := rfl
      constructor
      · intro h
        simp [bind, Except.bind, hw, pure, Except.pure] at h
        subst h
        exact ⟨rfl, rfl, hw⟩
      · rintro ⟨-, rfl, -⟩
        simp [bind, Except.bind, hw, pure, Except.pure]

lemma clearTimer_ok_iff (m : Machine) (now : Int) (m' : Machine) :
    m.clearTimer now = .ok m' ↔
      (m' = { m with timerEndTime := none, updatedAt := now } ∧
       m'.validate = .ok ()) := by
  unfold Machine.clearTimer
  cases hw : Machine.validate { m with timerEndTime := none, updatedAt := now } with
  | error e =>
    constructor
    · intro h; simp [bind, Except.bind, hw] at h
    · rintro ⟨rfl, h2⟩; rw [hw] at h2; cases h2
  | ok u' =>
    obtain rfl : u' = () := rfl
    constructor
    · intro h
      simp [bind, Except.bind, hw, pure, Except.pure] at h
      subst h
      exact ⟨rfl, hw⟩
    · rintro ⟨rfl, -⟩
      simp [bind, Except.bind, hw, pure, Except.pure]

lemma fromData_ok_iff (data : Machine) (m : Machine) :
    Machine.fromData data = .ok m ↔ (data.validate = .ok () ∧ m = data) := by
  unfold Machine.fromData
  cases hw : data.validate with
  | error e =>
    constructor
    · intro h; simp [bind, Except.bind] at h
    · rintro ⟨h1, -⟩; cases h1
  | ok u =>
    obtain rfl : u = () := rfl
    constructor
    · intro h
      simp [bind, Except.bind, pure, Except.pure] at h
      exact ⟨rfl, h.symm⟩
    · rintro ⟨-, rfl⟩
      simp [bind, Except.bind, pure, Except.pure]

lemma fdiv_1000_le_self {n : Int} (h : 0 ≤ n) : n.fdiv 1000 ≤ n := by
  rw [Int.fdiv_eq_ediv _ (by norm_num)]; omega

lemma fdiv_1000_pos {n : Int} (h : 1000 ≤ n) : 0 < n.fdiv 1000 := by
  rw [Int.fdiv_eq_ediv _ (by norm_num)]; omega

lemma le_of_fdiv_1000_pos {n : Int} (h : 0 < n.fdiv 1000) : 1000 ≤ n := by
  rw [Int.fdiv_eq_ediv _ (by norm_num)] at h; omega

lemma replaceFirst_none_iff (store : List Machine) (targetId : Int) (u : Machine) :
    replaceFirst store targetId u = none ↔
      store.find? (fun m => m.id == targetId) = none := by
  induction store with
  | nil => simp [replaceFirst]
  | cons m rest ih =>
    by_cases hm : (m.id == targetId) = true
    · simp [replaceFirst, hm, List.find?_cons]
    · have hm' : (m.id == targetId) = false := by simpa using hm
      simp [replaceFirst, hm', List.find?_cons, ih]

lemma replaceFirst_mem {store store' : List Machine} {targetId : Int} {u : Machine}
    (h : replaceFirst store targetId u = some store') :
    ∀ x ∈ store', x = u ∨ x ∈ store := by
  induction store generalizing store' with
  | nil => simp [replaceFirst] at h
  | cons m rest ih =>
    by_cases hm : (m.id == targetId) = true
    · rw [replaceFirst, if_pos hm] at h
      obtain rfl : u :: rest = store' := by injection h
      intro x hx
      rcases List.mem_cons.mp hx with rfl | hx
      · exact Or.inl rfl
      · exact Or.inr (List.mem_cons_of_mem m hx)
    · rw [replaceFirst, if_neg hm] at h
      cases hrest : replaceFirst rest targetId u with
      | none => rw [hrest] at h; simp at h
      | some rest' =>
        rw [hrest] at h
        obtain rfl : m :: rest' = store' := by injection h
        intro x hx
        rcases List.mem_cons.mp hx with rfl | hx
        · exact Or.inr (List.mem_cons_self x rest)
        · rcases ih hrest x hx with h1 | h1
          · exact Or.inl h1
          · exact Or.inr (List.mem_cons_of_mem m h1)

lemma find?_replaceFirst_self {store store' : List Machine} {targetId : Int} {u : Machine}
    (hrep : replaceFirst store targetId u = some store')
    (hu : (u.id == targetId) = true) :
    store'.find? (fun m => m.id == targetId) = some u := by
  induction store generalizing store' with
  | nil => simp [replaceFirst] at hrep
  | cons m rest ih =>
    by_cases hm : (m.id == targetId) = true
    · rw [replaceFirst, if_pos hm] at hrep
      obtain rfl : u :: rest = store' := by injection hrep
      simp [List.find?_cons, hu]
    · rw [replaceFirst, if_neg hm] at hrep
      cases hrest : replaceFirst rest targetId u with
      | none => rw [hrest] at hrep; simp at hrep
      | some rest' =>
        rw [hrest] at hrep
        obtain rfl : m :: rest' = store' := by injection hrep
        have hm' : (m.id == targetId) = false := by simpa using hm
        simp [List.find?_cons, hm']
        exact ih hrest

lemma replaceFirst_self {store : List Machine} {targetId : Int} {u : Machine}
    (hfind : store.find? (fun m => m.id == targetId) = some u) :
    replaceFirst store targetId u = some store := by
  induction store with
  | nil => simp at hfind
  | cons m rest ih =>
    by_cases hm : (m.id == targetId) = true
    · rw [List.find?_cons, hm] at hfind
      simp only [] at hfind
      obtain rfl : m = u := by injection hfind
      rw [replaceFirst, if_pos hm]
    · have hm' : (m.id == targetId) = false := by simpa using hm
      rw [List.find?_cons, hm'] at hfind
      simp only [] at hfind
      rw [replaceFirst, if_neg hm, ih hfind]
      rfl

lemma one_le_num_of_one_le {d : ℚ} (hden : d.den = 1) (h1 : 1 ≤ d) : 1 ≤ d.num := by
  have h2 : (d.num : ℚ) = d := Rat.coe_int_num_of_den_eq_one hden
  have h3 : (1 : ℚ) ≤ (d.num : ℚ) := by rw [h2]; exact h1
  exact_mod_cast h3

lemma storedMachineValid_iff (m : Machine) :
    storedMachineValid m = true ↔
      (0 < m.id ∧ isBlank m.name = false ∧
       (∀ e, m.timerEndTime = some e → 0 < e) ∧ 0 < m.createdAt ∧ 0 < m.updatedAt) := by
  cases ht : m.timerEndTime with
  | none =>
    simp [storedMachineValid, ht]
    tauto
  | some t =>
    simp [storedMachineValid, ht]
    tauto

lemma updateMachine_ok (store : List Machine) (u : Machine) (nowMs : Int)
    (store' : List Machine)
    (hrep : replaceFirst store u.id { u with updatedAt := nowMs } = some store')
    (hall : store'.all storedMachineValid = true) :
    LocalStorageService.updateMachine store u nowMs = .ok store' := by
  unfold LocalStorageService.updateMachine
  rw [hrep]
  simp [hall, bind, Except.bind, pure, Except.pure]

/-- C5/C6 helper: the success path of the frontend `clearTimer` on a
well-formed store with a sane clock: the stored record loses its timer
and gets `updatedAt = Date.now()` (ms), the outcome is the cleared
machine's status, and one `machine_updated` broadcast goes out. -/
lemma frontend_clearTimer_success (store : List Machine) (machineId nowMs : Int)
    (data : Machine)
    (hfind : store.find? (fun m => m.id == machineId) = some data)
    (hvalid : ∀ m ∈ store, m.validate = .ok () ∧ storedMachineValid m = true)
    (hclock : data.createdAt ≤ nowMs.fdiv 1000)
    (hsec : 0 < nowMs.fdiv 1000) :
    ∃ store',
      replaceFirst store data.id
          ({ data with timerEndTime := none, updatedAt := nowMs } : Machine) = some store' ∧
      FrontendMachineService.clearTimer store machineId nowMs =
        ⟨store',
         .ok (({ data with timerEndTime := none, updatedAt := nowMs.fdiv 1000 } : Machine).toStatus
           (nowMs.fdiv 1000)),
         [.machineUpdated machineId (({ data with timerEndTime := none, updatedAt := nowMs.fdiv 1000 } : Machine).toStatus (nowMs.fdiv 1000))]⟩ := by
  have hmem : data ∈ store := List.mem_of_find?_eq_some hfind
  have hdata := hvalid data hmem
  have hdid' : data.id = machineId := by
    have h := List.find?_some hfind
    simpa using h
  subst hdid'
  have hms : 1000 ≤ nowMs := le_of_fdiv_1000_pos hsec
  obtain ⟨hidpos, hbl, htm, hcA, huA⟩ := (storedMachineValid_iff data).mp hdata.2
  have hvm : validateMachineId data.id = true := by
    simp [validateMachineId]
    omega
  obtain ⟨hn1, hn2, -, hc0, -, -⟩ := (validate_ok_iff data).mp hdata.1
  have hm1 : ({ data with timerEndTime := none, updatedAt := nowMs.fdiv 1000 } : Machine).validate = .ok () := by
    rw [validate_ok_iff]
    exact ⟨hn1, hn2, by simp, hc0, hsec, hclock⟩
  have hclear : data.clearTimer (nowMs.fdiv 1000) =
      .ok ({ data with timerEndTime := none, updatedAt := nowMs.fdiv 1000 } : Machine) :=
    (clearTimer_ok_iff data _ _).mpr ⟨rfl, hm1⟩
  have hfd : Machine.fromData data = .ok data := (fromData_ok_iff data data).mpr ⟨hdata.1, rfl⟩
  have hu_valid : storedMachineValid
      ({ data with timerEndTime := none, updatedAt := nowMs } : Machine) = true := by
    rw [storedMachineValid_iff]
    refine ⟨hidpos, hbl, by simp, hcA, ?_⟩
    show (0 : Int) < nowMs
    omega
  obtain ⟨store', hrep⟩ : ∃ store',
      replaceFirst store data.id
        ({ data with timerEndTime := none, updatedAt := nowMs } : Machine) = some store' := by
    cases h : replaceFirst store data.id
        ({ data with timerEndTime := none, updatedAt := nowMs } : Machine) with
    | none =>
      rw [replaceFirst_none_iff, hfind] at h
      cases h
    | some s' => exact ⟨s', rfl⟩
  have hall : store'.all storedMachineValid = true := by
    rw [List.all_eq_true]
    intro x hx
    rcases replaceFirst_mem hrep x hx with rfl | hxm
    · exact hu_valid
    · exact (hvalid x hxm).2
  have hupd : LocalStorageService.updateMachine store
      ({ data with timerEndTime := none, updatedAt := nowMs.fdiv 1000 } : Machine) nowMs =
      .ok store' :=
    updateMachine_ok store _ nowMs store' hrep hall
  refine ⟨store', hrep, ?_⟩
  unfold FrontendMachineService.clearTimer
  simp [hvm, hfind, hfd, hclear, hupd]

/-- C5 helper: the success path of the frontend `setTimer`: the stored
record gets `timerEndTime = now + duration*60` (seconds) and
`updatedAt = Date.now()` (ms), and one `timer_set` broadcast goes out. -/
lemma frontend_setTimer_success (store : List Machine) (machineId nowMs : Int)
    (d : ℚ) (data : Machine)
    (hfind : store.find? (fun m => m.id == machineId) = some data)
    (hvalid : ∀ m ∈ store, m.validate = .ok () ∧ storedMachineValid m = true)
    (hclock : data.createdAt ≤ nowMs.fdiv 1000)
    (hsec : 0 < nowMs.fdiv 1000)
    (hden : d.den = 1) (hd1 : 1 ≤ d) (hd2 : d ≤ 120) :
    ∃ store',
      replaceFirst store data.id
          ({ data with timerEndTime := some (nowMs.fdiv 1000 + d.num * 60), updatedAt := nowMs } : Machine) = some store' ∧
      FrontendMachineService.setTimer store machineId d nowMs =
        ⟨store',
         .ok (({ data with timerEndTime := some (nowMs.fdiv 1000 + d.num * 60), updatedAt := nowMs.fdiv 1000 } : Machine).toStatus (nowMs.fdiv 1000)),
         [.timerSet machineId (({ data with timerEndTime := some (nowMs.fdiv 1000 + d.num * 60), updatedAt := nowMs.fdiv 1000 } : Machine).toStatus (nowMs.fdiv 1000))]⟩ := by
  have hmem : data ∈ store := List.mem_of_find?_eq_some hfind
  have hdata := hvalid data hmem
  have hdid' : data.id = machineId := by
    have h := List.find?_some hfind
    simpa using h
  subst hdid'
  have hms : 1000 ≤ nowMs := le_of_fdiv_1000_pos hsec
  have hnum : 1 ≤ d.num := one_le_num_of_one_le hden hd1
  obtain ⟨hidpos, hbl, htm, hcA, huA⟩ := (storedMachineValid_iff data).mp hdata.2
  have hvm : validateMachineId data.id = true := by
    simp [validateMachineId]
    omega
  have hdur : Machine.validateTimerDuration d = .ok () :=
    (validateTimerDuration_ok_iff d).mpr ⟨hden, hd1, hd2⟩
  obtain ⟨hn1, hn2, -, hc0, -, -⟩ := (validate_ok_iff data).mp hdata.1
  have hm1 : ({ data with timerEndTime := some (nowMs.fdiv 1000 + d.num * 60), updatedAt := nowMs.fdiv 1000 } : Machine).validate = .ok () := by
    rw [validate_ok_iff]
    refine ⟨hn1, hn2, ?_, hc0, hsec, hclock⟩
    intro e he
    simp only [Option.some.injEq] at he
    have : (0 : Int) < nowMs.fdiv 1000 + d.num * 60 := by nlinarith
    omega
  have hset : data.setTimer d (nowMs.fdiv 1000) =
      .ok ({ data with timerEndTime := some (nowMs.fdiv 1000 + d.num * 60), updatedAt := nowMs.fdiv 1000 } : Machine) :=
    (setTimer_ok_iff data d _ _).mpr ⟨hdur, rfl, hm1⟩
  have hfd : Machine.fromData data = .ok data := (fromData_ok_iff data data).mpr ⟨hdata.1, rfl⟩
  have hu_valid : storedMachineValid
      ({ data with timerEndTime := some (nowMs.fdiv 1000 + d.num * 60), updatedAt := nowMs } : Machine) = true := by
    rw [storedMachineValid_iff]
    refine ⟨hidpos, hbl, ?_, hcA, ?_⟩
    · intro e he
      simp only [Option.some.injEq] at he
      have hp : (0 : Int) < nowMs.fdiv 1000 + d.num * 60 := by nlinarith
      omega
    · show (0 : Int) < nowMs
      omega
  obtain ⟨store', hrep⟩ : ∃ store',
      replaceFirst store data.id
        ({ data with timerEndTime := some (nowMs.fdiv 1000 + d.num * 60), updatedAt := nowMs } : Machine) = some store' := by
    cases h : replaceFirst store data.id
        ({ data with timerEndTime := some (nowMs.fdiv 1000 + d.num * 60), updatedAt := nowMs } : Machine) with
    | none =>
      rw [replaceFirst_none_iff, hfind] at h
      cases h
    | some s' => exact ⟨s', rfl⟩
  have hall : store'.all storedMachineValid = true := by
    rw [List.all_eq_true]
    intro x hx
    rcases replaceFirst_mem hrep x hx with rfl | hxm
    · exact hu_valid
    · exact (hvalid x hxm).2
  have hupd : LocalStorageService.updateMachine store
      ({ data with timerEndTime := some (nowMs.fdiv 1000 + d.num * 60), updatedAt := nowMs.fdiv 1000 } : Machine) nowMs = .ok store' :=
    updateMachine_ok store _ nowMs store' hrep hall
  refine ⟨store', hrep, ?_⟩
  unfold FrontendMachineService.setTimer
  simp [hvm, hdur, hfind, hfd, hset, hupd]

/-! ## Claim theorems -/

/-- C1. For every machine record and instant `now` (seconds, nonnegative),
the derived status is `in-use` iff `timerEndTime` is present and strictly
greater than `now` (so at `now = timerEndTime` the machine is available),
and `toStatus` reports `remainingTimeMs = (timerEndTime - now) * 1000`
(which equals `max(0, timerEndTime - now)` in milliseconds) exactly when
the status is `in-use`, and no remaining time otherwise. -/
theorem statusDerivation_correct (m : Machine) (now : Int) (hnow : 0 ≤ now) :
    (m.status now = .inUse ↔ ∃ e, m.timerEndTime = some e ∧ now < e) ∧
    (∀ e, m.timerEndTime = some e → now < e →
      (m.toStatus now).remainingTimeMs = some ((e - now) * 1000)) ∧
    (m.status now = .available → (m.toStatus now).remainingTimeMs = none) := by
  cases ht : m.timerEndTime with
  | none =>
    simp [Machine.status, Machine.toStatus, Machine.getRemainingTimeMs, timerTruthy, ht]
  | some e =>
    have hiff : m.status now = .inUse ↔ (e ≠ 0 ∧ now < e) := by
      by_cases he : e = 0
      · subst he; simp [Machine.status, timerTruthy, ht]
      · by_cases hlt : now < e <;> simp [Machine.status, timerTruthy, ht, he, hlt]
    refine ⟨?_, ?_, ?_⟩
    · rw [hiff]
      simp only [ht, Option.some.injEq]
      constructor
      · rintro ⟨-, h⟩; exact ⟨e, rfl, h⟩
      · rintro ⟨e', rfl, h⟩; exact ⟨by omega, h⟩
    · rintro e' he' hlt
      obtain rfl : e = e' := by injection he'
      have he0 : e ≠ 0 := by omega
      have hpos : 0 < (e - now) * 1000 := mul_pos (by omega) (by norm_num)
      have hmax : max 0 ((e - now) * 1000) = (e - now) * 1000 := max_eq_right hpos.le
      simp [Machine.toStatus, Machine.getRemainingTimeMs, timerTruthy, ht, he0, hmax, hpos]
    · intro havail
      by_cases he : e = 0
      · subst he
        simp [Machine.toStatus, Machine.getRemainingTimeMs, timerTruthy, ht]
      · have hle : e ≤ now := by
          by_contra hlt
          have : m.status now = .inUse := hiff.mpr ⟨he, by omega⟩
          rw [this] at havail
          cases havail
        have hnp : (e - now) * 1000 ≤ 0 := by nlinarith
        have hmax : max 0 ((e - now) * 1000) = 0 := max_eq_left hnp
        simp [Machine.toStatus, Machine.getRemainingTimeMs, timerTruthy, ht, he, hmax]

/-- C1 witness: a machine reserved until `2800` observed at `2700` is
in-use with `100000` ms remaining. -/
theorem statusDerivation_correct_witness :
    (0 : Int) ≤ 2700 ∧
      (({ id := 1, name := "Washer 1", timerEndTime := some 2800, createdAt := 500,
          updatedAt := 1000 } : Machine).toStatus 2700).remainingTimeMs = some 100000 := by
  refine ⟨by norm_num, ?_⟩
  have h := statusDerivation_correct
    { id := 1, name := "Washer 1", timerEndTime := some 2800, createdAt := 500, updatedAt := 1000 }
    2700 (by norm_num)
  have := h.2.1 2800 rfl (by norm_num)
  simpa using this

/-- C9. There is exactly one notion of availability: `isAvailable()`
agrees with the derived status for every machine and instant, and for a
machine with a (truthy) timer present `isTimerExpired()` is exactly the
complement of the in-use condition `timerEndTime > now` — the three can
never disagree. -/
theorem availability_single_notion (m : Machine) (now : Int)
    (h : ∀ e, m.timerEndTime = some e → e ≠ 0) :
    m.isAvailable now = (m.status now == .available) ∧
    (∀ e, m.timerEndTime = some e → m.isTimerExpired now = !(decide (e > now))) := by
  cases ht : m.timerEndTime with
  | none =>
    simp [Machine.isAvailable, Machine.status, Machine.isTimerExpired, timerTruthy, ht]
  | some e =>
    have he : e ≠ 0 := h e ht
    by_cases hlt : e > now
    · simp [Machine.isAvailable, Machine.status, Machine.isTimerExpired, timerTruthy,
        ht, he, hlt]
    · simp [Machine.isAvailable, Machine.status, Machine.isTimerExpired, timerTruthy,
        ht, he, hlt]
      omega

lemma any_congr_mem {α : Type} (l : List α) (p q : α → Bool)
    (h : ∀ x ∈ l, p x = q x) : l.any p = l.any q := by
  induction l with
  | nil => rfl
  | cons a t ih =>
    simp only [List.any_cons, h a (by simp)]
    rw [ih fun x hx => h x (by simp [hx])]

/-- C2 helper: the sweep fold, started from any accumulator, appends the
map of cleared machines, the per-cleared-machine events, and or-s the
flag with "some machine is expired". -/
lemma sweep_foldl_characterization (nowMs nowSec : Int) (machines : List Machine)
    (acc : List Machine × List BroadcastMsg × Bool) :
    machines.foldl (TimerService.sweepStep nowMs nowSec) acc =
      (acc.1 ++ machines.map (fun m =>
         if TimerService.isExpiredAt nowSec m
         then { m with timerEndTime := none, updatedAt := nowMs } else m),
       acc.2.1 ++ (machines.filter (TimerService.isExpiredAt nowSec)).map
         (fun m => .timerExpired m.id (expiredStatusOf m)),
       acc.2.2 || machines.any (TimerService.isExpiredAt nowSec)) := by
  induction machines generalizing acc with
  | nil => simp
  | cons m rest ih =>
    rw [List.foldl_cons, ih]
    by_cases hc : TimerService.isExpiredAt nowSec m <;>
      simp [TimerService.sweepStep, hc, expiredStatusOf, Bool.or_assoc]

/-- C2. For every machine list and sweep instant, one
`checkExpiredTimers` pass (over storage-valid records, whose present
timers are positive) clears exactly the machines whose `timerEndTime` is
present and `≤ now`, emits exactly one `timer_expired` event per cleared
machine, leaves every other machine unchanged, and writes back iff at
least one machine expired; a sweep finding none leaves the list as-is,
emits nothing and performs no write. -/
theorem sweep_correct (machines : List Machine) (nowMs : Int)
    (hvalid : ∀ m ∈ machines, ∀ e, m.timerEndTime = some e → 0 < e) :
    (TimerService.checkExpiredTimers machines nowMs =
      (machines.map (fun m =>
         if m.timerEndTime.any (fun e => e ≤ nowMs.fdiv 1000)
         then { m with timerEndTime := none, updatedAt := nowMs } else m),
       (machines.filter (fun m => m.timerEndTime.any (fun e => e ≤ nowMs.fdiv 1000))).map
         (fun m => .timerExpired m.id (expiredStatusOf m)),
       machines.any (fun m => m.timerEndTime.any (fun e => e ≤ nowMs.fdiv 1000)))) ∧
    ((∀ m ∈ machines, m.timerEndTime.any (fun e => e ≤ nowMs.fdiv 1000) = false) →
      TimerService.checkExpiredTimers machines nowMs = (machines, [], false)) := by
  have hpt : ∀ m ∈ machines,
      TimerService.isExpiredAt (nowMs.fdiv 1000) m =
        m.timerEndTime.any (fun e => e ≤ nowMs.fdiv 1000) := by
    intro m hm
    cases ht : m.timerEndTime with
    | none => simp [TimerService.isExpiredAt, timerTruthy, ht]
    | some e =>
      have he : 0 < e := hvalid m hm e ht
      simp [TimerService.isExpiredAt, timerTruthy, ht, Option.any_some]
      omega
  have hmain : TimerService.checkExpiredTimers machines nowMs =
      (machines.map (fun m =>
         if m.timerEndTime.any (fun e => e ≤ nowMs.fdiv 1000)
         then { m with timerEndTime := none, updatedAt := nowMs } else m),
       (machines.filter (fun m => m.timerEndTime.any (fun e => e ≤ nowMs.fdiv 1000))).map
         (fun m => .timerExpired m.id (expiredStatusOf m)),
       machines.any (fun m => m.timerEndTime.any (fun e => e ≤ nowMs.fdiv 1000))) := by
    rw [TimerService.checkExpiredTimers, sweep_foldl_characterization]
    simp only [List.nil_append, Bool.false_or]
    refine congrArg₂ _ ?_ (congrArg₂ _ ?_ ?_)
    · exact List.map_congr_left fun m hm => by rw [hpt m hm]
    · rw [List.filter_congr hpt]
    · exact any_congr_mem _ _ _ hpt
  refine ⟨hmain, fun hnone => ?_⟩
  rw [hmain]
  refine congrArg₂ _ ?_ (congrArg₂ _ ?_ ?_)
  · have hmapid : machines.map (fun m =>
        if m.timerEndTime.any (fun e => e ≤ nowMs.fdiv 1000)
        then { m with timerEndTime := none, updatedAt := nowMs } else m) =
        machines.map (fun m => m) :=
      List.map_congr_left fun m hm => by simp [hnone m hm]
    rw [hmapid, List.map_id']
  · rw [List.filter_congr fun m hm => hnone m hm]
    simp
  · rw [List.any_eq_false]
    intro m hm
    simp [hnone m hm]

/-- C2 witness: one machine expired at `940`, one without a timer, swept
at `nowMs = 1000000` (seconds clock `1000`): exactly the first is
cleared, one event is emitted, and the write flag is set. -/
theorem sweep_correct_witness :
    (∀ m ∈ [({ id := 1, name := "W", timerEndTime := some 940, createdAt := 500,
               updatedAt := 600 } : Machine),
            { id := 2, name := "D", timerEndTime := none, createdAt := 500,
               updatedAt := 600 }],
       ∀ e, m.timerEndTime = some e → 0 < e) ∧
    TimerService.checkExpiredTimers
        [{ id := 1, name := "W", timerEndTime := some 940, createdAt := 500, updatedAt := 600 },
         { id := 2, name := "D", timerEndTime := none, createdAt := 500, updatedAt := 600 }]
        1000000 =
      ([{ id := 1, name := "W", timerEndTime := none, createdAt := 500, updatedAt := 1000000 },
        { id := 2, name := "D", timerEndTime := none, createdAt := 500, updatedAt := 600 }],
       [.timerExpired 1 { id := 1, name := "W", status := .available, remainingTimeMs := none }],
       true) := by
  refine ⟨by decide, ?_⟩
  rw [(sweep_correct _ 1000000 (by decide)).1]
  decide

/-- C3 helper: the three non-sync inputs are ignored without touching the
state. -/
lemma handle_trivial_inputs (s : GuardState) :
    StorageEventService.handleStorageEvent s .otherKey = (s, []) ∧
    StorageEventService.handleStorageEvent s .noNewValue = (s, []) ∧
    StorageEventService.handleStorageEvent s .parseError = (s, []) :=
  ⟨rfl, rfl, rfl⟩

/-- C3 helper: a self-originated event is dropped without state change. -/
lemma handle_self_dropped (s : GuardState) (v : ParsedJson)
    (h : v.tabIdOf = some s.tabId) :
    StorageEventService.handleStorageEvent s (.parsed v) = (s, []) := by
  simp [StorageEventService.handleStorageEvent, h]

/-- C3 helper: a stale event (`timestamp ≤ lastProcessedEventTime`) is
dropped without state change. -/
lemma handle_stale_dropped (s : GuardState) (v : ParsedJson) (ts : Int)
    (hts : v.timestampOf = some ts) (hle : ts ≤ s.lastProcessedEventTime) :
    StorageEventService.handleStorageEvent s (.parsed v) = (s, []) := by
  by_cases hself : v.tabIdOf = some s.tabId
  · exact handle_self_dropped s v hself
  · simp [StorageEventService.handleStorageEvent, hself, hts, hle]

/-- C3 helper: a malformed event is dropped without state change. -/
lemma handle_invalid_dropped (s : GuardState) (v : ParsedJson)
    (h : StorageEventService.isValidSyncEvent v = false) :
    StorageEventService.handleStorageEvent s (.parsed v) = (s, []) := by
  by_cases hself : v.tabIdOf = some s.tabId
  · exact handle_self_dropped s v hself
  · rcases hts : v.timestampOf with _ | ts
    · simp [StorageEventService.handleStorageEvent, hself, hts, h]
    · by_cases hle : ts ≤ s.lastProcessedEventTime
      · exact handle_stale_dropped s v ts hts hle
      · simp [StorageEventService.handleStorageEvent, hself, hts, hle, h]

/-- C3 helper: a well-formed, foreign, newer event is applied: the state
advances to its timestamp and it is delivered to listeners. -/
lemma handle_applied (s : GuardState) (v : ParsedJson) (ts : Int)
    (hvalid : StorageEventService.isValidSyncEvent v = true)
    (hself : v.tabIdOf ≠ some s.tabId)
    (hts : v.timestampOf = some ts) (hgt : s.lastProcessedEventTime < ts) :
    StorageEventService.handleStorageEvent s (.parsed v) =
      ({ s with lastProcessedEventTime := ts }, [v]) := by
  have hle : ¬ts ≤ s.lastProcessedEventTime := by omega
  simp [StorageEventService.handleStorageEvent, hself, hts, hle, hvalid]

/-- C3. The SyncGuard applies an incoming storage event — delivering it
to listeners and advancing `lastProcessedEventTime` to its timestamp —
iff the event parses to a well-formed sync event whose `tabId` differs
from the observer's own and whose `timestamp` is strictly greater than
`lastProcessedEventTime`; every rejected input (other key, removal,
unparsable, self-originated, stale, malformed) is dropped with no state
change and no listener invocation, and handling the same event again
after it was applied delivers nothing (exactly-once). -/
theorem syncGuard_correct (s : GuardState) (v : ParsedJson) :
    (StorageEventService.handleStorageEvent s .otherKey = (s, []) ∧
     StorageEventService.handleStorageEvent s .noNewValue = (s, []) ∧
     StorageEventService.handleStorageEvent s .parseError = (s, [])) ∧
    (v.tabIdOf = some s.tabId →
      StorageEventService.handleStorageEvent s (.parsed v) = (s, [])) ∧
    (∀ ts, v.timestampOf = some ts → ts ≤ s.lastProcessedEventTime →
      StorageEventService.handleStorageEvent s (.parsed v) = (s, [])) ∧
    (StorageEventService.isValidSyncEvent v = false →
      StorageEventService.handleStorageEvent s (.parsed v) = (s, [])) ∧
    (∀ ts, StorageEventService.isValidSyncEvent v = true →
      v.tabIdOf ≠ some s.tabId → v.timestampOf = some ts →
      s.lastProcessedEventTime < ts →
      StorageEventService.handleStorageEvent s (.parsed v) =
        ({ s with lastProcessedEventTime := ts }, [v])) ∧
    (StorageEventService.handleStorageEvent
        (StorageEventService.handleStorageEvent s (.parsed v)).1 (.parsed v)).2 = [] := by
  refine ⟨handle_trivial_inputs s, handle_self_dropped s v, fun ts => handle_stale_dropped s v ts,
    handle_invalid_dropped s v, fun ts h1 h2 h3 h4 => handle_applied s v ts h1 h2 h3 h4, ?_⟩
  by_cases hvalid : StorageEventService.isValidSyncEvent v = true
  · by_cases hself : v.tabIdOf = some s.tabId
    · rw [handle_self_dropped s v hself]
      simp [handle_self_dropped s v hself]
    · rcases hts : v.timestampOf with _ | ts
      · -- a valid event always has a timestamp; derive a contradiction
        rcases v with _ | e
        · simp [StorageEventService.isValidSyncEvent] at hvalid
        · simp [ParsedJson.timestampOf] at hts
          simp [StorageEventService.isValidSyncEvent, hts] at hvalid
      · by_cases hle : ts ≤ s.lastProcessedEventTime
        · rw [handle_stale_dropped s v ts hts hle]
          simp [handle_stale_dropped s v ts hts hle]
        · have h2 := handle_stale_dropped { s with lastProcessedEventTime := ts } v ts hts
            (le_refl ts)
          rw [handle_applied s v ts hvalid hself hts (by omega)]
          simp [h2]
  · rw [handle_invalid_dropped s v (by simpa using hvalid)]
    simp [handle_invalid_dropped s v (by simpa using hvalid)]

/-- C9 witness: with a timer ending at `940` observed at `1000`, the
status getter, `isAvailable` and `isTimerExpired` agree (available,
expired). -/
theorem availability_single_notion_witness :
    (∀ e, ({ id := 1, name := "W", timerEndTime := some 940, createdAt := 500,
             updatedAt := 600 } : Machine).timerEndTime = some e → e ≠ 0) ∧
    ({ id := 1, name := "W", timerEndTime := some 940, createdAt := 500,
       updatedAt := 600 } : Machine).isAvailable 1000 = true := by
  refine ⟨by intro e he; simp at he; omega, ?_⟩
  have h := availability_single_notion
    { id := 1, name := "W", timerEndTime := some 940, createdAt := 500, updatedAt := 600 }
    1000 (by intro e he; simp at he; omega)
  rw [h.1]
  decide

/-- C3 witness: from `lastProcessedEventTime = 50`, a well-formed
`timer_set` event from tab `tab_b` with timestamp `100` is applied by an
observer whose own id is `tab_a`: the state advances to `100` and the
event is delivered once. -/
theorem syncGuard_correct_witness :
    StorageEventService.handleStorageEvent ⟨"tab_a", 50⟩
        (.parsed (.obj ⟨some "timer_set", some 3, none, some 100, some "tab_b"⟩)) =
      (⟨"tab_a", 100⟩,
       [.obj ⟨some "timer_set", some 3, none, some 100, some "tab_b"⟩]) :=
  (syncGuard_correct ⟨"tab_a", 50⟩
      (.obj ⟨some "timer_set", some 3, none, some 100, some "tab_b"⟩)).2.2.2.2.1
    100 (by decide) (by decide) rfl (by decide)

/-- C7. Every mutation of a machine record preserves the record invariant
`updatedAt ≥ createdAt` with both timestamps positive: a successful
`setTimer`, a successful `clearTimer` (each re-validates), and the
sweeper's clearing pass over records that satisfied the invariant and
were created no later than the sweep instant. -/
theorem mutators_preserve_invariant :
    (∀ (m : Machine) (d : ℚ) (now : Int) (m' : Machine),
        m.setTimer d now = Except.ok m' → m'.invariantHolds) ∧
    (∀ (m : Machine) (now : Int) (m' : Machine),
        m.clearTimer now = Except.ok m' → m'.invariantHolds) ∧
    (∀ (machines : List Machine) (nowMs : Int),
        (∀ m ∈ machines, m.invariantHolds ∧ m.createdAt ≤ nowMs) →
        ∀ m' ∈ (TimerService.checkExpiredTimers machines nowMs).1, m'.invariantHolds) := by
  refine ⟨?_, ?_, ?_⟩
  · intro m d now m' h
    obtain ⟨-, -, hv⟩ := (setTimer_ok_iff m d now m').mp h
    obtain ⟨-, -, -, h1, h2, h3⟩ := (validate_ok_iff m').mp hv
    exact ⟨h3, h1, h2⟩
  · intro m now m' h
    obtain ⟨-, hv⟩ := (clearTimer_ok_iff m now m').mp h
    obtain ⟨-, -, -, h1, h2, h3⟩ := (validate_ok_iff m').mp hv
    exact ⟨h3, h1, h2⟩
  · intro machines nowMs h m' hm'
    rw [TimerService.checkExpiredTimers, sweep_foldl_characterization] at hm'
    simp only [List.nil_append] at hm'
    obtain ⟨m, hm, rfl⟩ := List.mem_map.mp hm'
    obtain ⟨⟨hcu, hc0, hu0⟩, hle⟩ := h m hm
    by_cases hc : TimerService.isExpiredAt (nowMs.fdiv 1000) m
    · simp only [if_pos hc]
      refine ⟨hle, hc0, ?_⟩
      show (0 : Int) < nowMs
      omega
    · simp only [if_neg hc]
      exact ⟨hcu, hc0, hu0⟩

/-- C7 witness: a concrete `setTimer` success whose result satisfies the
invariant, and a concrete sweep at `nowMs = 1000000` preserving it. -/
theorem mutators_preserve_invariant_witness :
    (({ id := 1, name := "W", timerEndTime := none, createdAt := 500,
        updatedAt := 600 } : Machine).setTimer 30 1000 =
      Except.ok ({ id := 1, name := "W", timerEndTime := some 2800, createdAt := 500,
                   updatedAt := 1000 } : Machine)) ∧
    Machine.invariantHolds
      { id := 1, name := "W", timerEndTime := some 2800, createdAt := 500,
        updatedAt := 1000 } ∧
    (∀ m' ∈ (TimerService.checkExpiredTimers
        [{ id := 1, name := "W", timerEndTime := some 940, createdAt := 500,
           updatedAt := 600 }] 1000000).1, m'.invariantHolds) := by
  have hst : ({ id := 1, name := "W", timerEndTime := none, createdAt := 500,
                updatedAt := 600 } : Machine).setTimer 30 1000 =
      Except.ok ({ id := 1, name := "W", timerEndTime := some 2800, createdAt := 500,
                   updatedAt := 1000 } : Machine) := by
    rw [setTimer_ok_iff]
    refine ⟨?_, ?_, ?_⟩
    · rw [validateTimerDuration_ok_iff]
      norm_num
    · simp
    · rw [validate_ok_iff]
      refine ⟨by decide, by decide, ?_, by norm_num, by norm_num, by norm_num⟩
      intro e he
      injection he with h
      omega
  refine ⟨hst, mutators_preserve_invariant.1 _ 30 1000 _ hst, ?_⟩
  exact mutators_preserve_invariant.2.2 _ 1000000 (by decide)

/-! ## C8 helpers -/

lemma sendStep_foldl (clients : List SSEClient) (acc : List String × List String) :
    clients.foldl StatusBroadcastService.sendStep acc =
      (acc.1 ++ (clients.filter (fun c => c.writeOk)).map SSEClient.id,
       acc.2 ++ (clients.filter (fun c => !c.writeOk)).map SSEClient.id) := by
  induction clients generalizing acc with
  | nil => simp
  | cons c rest ih =>
    rw [List.foldl_cons, ih]
    by_cases hc : c.writeOk <;> simp [StatusBroadcastService.sendStep, hc]

lemma removeClient_eraseP (cs : List SSEClient) (x : String) :
    StatusBroadcastService.removeClient cs x = cs.eraseP (fun c => c.id == x) := by
  unfold StatusBroadcastService.removeClient
  cases h : cs.find? (fun c => c.id == x) with
  | some c => rfl
  | none =>
    rw [List.eraseP_of_forall_not fun a ha => by simpa using List.find?_eq_none.mp h a ha]

lemma eraseP_id_eq_filter (cs : List SSEClient) (h : (cs.map SSEClient.id).Nodup)
    (x : String) :
    cs.eraseP (fun c => c.id == x) = cs.filter (fun c => !(c.id == x)) := by
  induction cs with
  | nil => rfl
  | cons c rest ih =>
    simp only [List.map_cons, List.nodup_cons] at h
    by_cases hc : c.id = x
    · subst hc
      have hrest : rest.filter (fun c1 => !(c1.id == c.id)) = rest := by
        rw [List.filter_eq_self]
        intro a ha
        have : a.id ≠ c.id := fun heq => h.1 (heq ▸ List.mem_map_of_mem SSEClient.id ha)
        simp [this]
      simp [List.eraseP_cons, List.filter_cons, hrest]
    · have hb : (c.id == x) = false := by simp [hc]
      simp [List.eraseP_cons, List.filter_cons, hb, ih h.2]

lemma foldl_removeClient_eq_filter (ids : List String) (cs : List SSEClient)
    (h : (cs.map SSEClient.id).Nodup) :
    ids.foldl StatusBroadcastService.removeClient cs =
      cs.filter (fun c => !ids.contains c.id) := by
  induction ids generalizing cs with
  | nil => simp
  | cons i is ih =>
    rw [List.foldl_cons, removeClient_eraseP, eraseP_id_eq_filter cs h i]
    have hsub : ((cs.filter (fun c => !(c.id == i))).map SSEClient.id).Nodup :=
      ((List.filter_sublist cs).map SSEClient.id).nodup h
    rw [ih _ hsub, List.filter_filter]
    apply List.filter_congr
    intro c hc
    by_cases hcc : c.id = i
    · subst hcc
      simp [List.contains_cons]
    · simp [List.contains_cons, hcc, Bool.not_or]

/-- C8. Broadcasting to the connected clients (with distinct ids)
attempts a write to every client: clients whose write succeeds all
receive the message, clients whose write throws are removed from the set
and forgotten, and no failure escapes or prevents delivery to the
others — the result is exactly (surviving clients, delivered ids,
dropped ids). -/
theorem broadcast_independent_failure (clients : List SSEClient)
    (h : (clients.map SSEClient.id).Nodup) :
    StatusBroadcastService.broadcastToAllClients clients =
      (clients.filter (fun c => c.writeOk),
       (clients.filter (fun c => c.writeOk)).map SSEClient.id,
       (clients.filter (fun c => !c.writeOk)).map SSEClient.id) := by
  unfold StatusBroadcastService.broadcastToAllClients
  rw [sendStep_foldl]
  simp only [List.nil_append]
  refine congrArg₂ _ ?_ rfl
  rw [foldl_removeClient_eq_filter _ _ h]
  apply List.filter_congr
  intro c hc
  cases hw : c.writeOk with
  | false =>
    simp
    exact ⟨c, ⟨hc, hw⟩, rfl⟩
  | true =>
    simp
    intro x hx hxw heq
    have hxc : x = c := List.inj_on_of_nodup_map h hx hc heq
    rw [hxc, hw] at hxw
    cases hxw

/-- C8 witness: three clients with the middle write failing — both others
are delivered to, the failing client is dropped. -/
theorem broadcast_independent_failure_witness :
    ((([⟨"a", true⟩, ⟨"b", false⟩, ⟨"c", true⟩] : List SSEClient).map SSEClient.id).Nodup) ∧
    StatusBroadcastService.broadcastToAllClients
        [⟨"a", true⟩, ⟨"b", false⟩, ⟨"c", true⟩] =
      ([⟨"a", true⟩, ⟨"c", true⟩], ["a", "c"], ["b"]) := by
  refine ⟨by decide, ?_⟩
  rw [broadcast_independent_failure _ (by decide)]
  rfl

/-! ## C4 helpers -/

lemma fromRow_ok_inv (row : MachineRow) (hok : (Machine.fromRow row).isOk = true) :
    isBlank row.name = false ∧ row.name.length ≤ 100 ∧ 0 < row.created_at ∧
    0 < row.updated_at ∧ row.created_at ≤ row.updated_at := by
  obtain ⟨m, hm⟩ : ∃ m, Machine.fromRow row = .ok m := by
    cases hfr : Machine.fromRow row with
    | error e => rw [hfr] at hok; simp [Except.isOk, Except.toBool] at hok
    | ok m => exact ⟨m, rfl⟩
  unfold Machine.fromRow at hm
  rw [fromData_ok_iff] at hm
  have hval := (validate_ok_iff _).mp hm.1
  exact ⟨hval.1, hval.2.1, hval.2.2.2.1, hval.2.2.2.2.1, hval.2.2.2.2.2⟩

lemma find?_map_setTimerUpdate (store : List MachineRow) (machineId e t : Int) :
    (store.map (fun r => if r.id == machineId then
        { r with timer_end_time := some e, updated_at := t } else r)).find?
        (fun r => r.id == machineId) =
      (store.find? (fun r => r.id == machineId)).map
        (fun r => if r.id == machineId then
          { r with timer_end_time := some e, updated_at := t } else r) := by
  rw [List.find?_map]
  have hpf : ((fun r : MachineRow => r.id == machineId) ∘
      (fun r => if r.id == machineId then
        { r with timer_end_time := some e, updated_at := t } else r)) =
      fun r : MachineRow => r.id == machineId := by
    funext r
    by_cases h : (r.id == machineId) = true <;> simp [Function.comp, h]
  rw [hpf]

lemma repo_setTimer_success (store : List MachineRow) (row : MachineRow)
    (machineId dn t : Int)
    (hrow : store.find? (fun r => r.id == machineId) = some row)
    (hname : isBlank row.name = false) (hlen : row.name.length ≤ 100)
    (hc0 : 0 < row.created_at)
    (hclock : row.created_at ≤ t)
    (hdn : 1 ≤ dn) :
    MachineRepository.setTimer store machineId dn t =
      .ok (store.map (fun r => if r.id == machineId then { r with timer_end_time := some (t + dn * 60), updated_at := t } else r),
           (⟨row.id, row.name, some (t + dn * 60), row.created_at, t⟩ : Machine)) := by
  have hmem : row ∈ store := List.mem_of_find?_eq_some hrow
  have hpred' : row.id = machineId := by
    have h := List.find?_some hrow
    simpa using h
  have hpred : (row.id == machineId) = true := by simp [hpred']
  have hepos : (0 : Int) < t + dn * 60 := by omega
  have hchanges : ((store.filter (fun r => r.id == machineId)).length == 0) = false := by
    have hmf : row ∈ store.filter (fun r => r.id == machineId) :=
      List.mem_filter.mpr ⟨hmem, hpred⟩
    cases hlen' : (store.filter (fun r => r.id == machineId)).length with
    | zero =>
      rw [List.length_eq_zero] at hlen'
      rw [hlen'] at hmf
      cases hmf
    | succ n => simp
  have hrtf : rowTimerField (some (t + dn * 60)) = some (t + dn * 60) := by
    simp [rowTimerField]
    omega
  have hfind' : (store.map (fun r => if r.id == machineId then { r with timer_end_time := some (t + dn * 60), updated_at := t } else r)).find? (fun r => r.id == machineId) =
      some { row with timer_end_time := some (t + dn * 60), updated_at := t } := by
    rw [find?_map_setTimerUpdate, hrow]
    simp [hpred']
  have hval : Machine.validate ⟨row.id, row.name, some (t + dn * 60), row.created_at, t⟩ = .ok () := by
    rw [validate_ok_iff]
    refine ⟨hname, hlen, ?_, hc0, ?_, ?_⟩
    · intro e he
      have he' : some (t + dn * 60) = some e := he
      injection he' with h
      omega
    · show (0 : Int) < t
      omega
    · show row.created_at ≤ t
      exact hclock
  have hfr : Machine.fromRow { row with timer_end_time := some (t + dn * 60), updated_at := t } =
      .ok (⟨row.id, row.name, some (t + dn * 60), row.created_at, t⟩ : Machine) := by
    unfold Machine.fromRow
    rw [fromData_ok_iff]
    constructor
    · show Machine.validate ⟨row.id, row.name, rowTimerField (some (t + dn * 60)), row.created_at, t⟩ = .ok ()
      rw [hrtf]
      exact hval
    · show (⟨row.id, row.name, some (t + dn * 60), row.created_at, t⟩ : Machine) =
        Machine.mk row.id row.name (rowTimerField (some (t + dn * 60))) row.created_at t
      rw [hrtf]
  have hfb : MachineRepository.findById (store.map (fun r => if r.id == machineId then { r with timer_end_time := some (t + dn * 60), updated_at := t } else r)) machineId =
      .ok (some (⟨row.id, row.name, some (t + dn * 60), row.created_at, t⟩ : Machine)) := by
    unfold MachineRepository.findById
    rw [hfind']
    simp [hfr, bind, Except.bind, pure, Except.pure]
  unfold MachineRepository.setTimer
  simp only [hchanges, Bool.false_eq_true, if_false, hfb, bind, Except.bind, pure, Except.pure]

lemma backend_setTimer_success (store : List MachineRow) (row : MachineRow)
    (machineId : Int) (d : ℚ) (t : Int)
    (hid : 0 < machineId)
    (hrow : store.find? (fun r => r.id == machineId) = some row)
    (hok : (Machine.fromRow row).isOk = true)
    (hden : d.den = 1) (hd1 : 1 ≤ d) (hd2 : d ≤ 120)
    (hclock : row.created_at ≤ t) :
    MachineService.setTimer store machineId d t =
      (store.map (fun r => if r.id == machineId then { r with timer_end_time := some (t + d.num * 60), updated_at := t } else r),
       .ok ((⟨row.id, row.name, some (t + d.num * 60), row.created_at, t⟩ : Machine).toStatus t)) := by
  obtain ⟨hname, hlen, hc0, hu0, hcu⟩ := fromRow_ok_inv row hok
  have hnum : 1 ≤ d.num := one_le_num_of_one_le hden hd1
  have hvm : validateMachineId machineId = true := by
    simp [validateMachineId]
    omega
  have hdur : Machine.validateTimerDuration d = .ok () :=
    (validateTimerDuration_ok_iff d).mpr ⟨hden, hd1, hd2⟩
  obtain ⟨m, hm⟩ : ∃ m, Machine.fromRow row = .ok m := by
    cases hfr : Machine.fromRow row with
    | error e => rw [hfr] at hok; simp [Except.isOk, Except.toBool] at hok
    | ok m => exact ⟨m, rfl⟩
  have hfb : MachineRepository.findById store machineId = .ok (some m) := by
    unfold MachineRepository.findById
    rw [hrow]
    simp [hm, bind, Except.bind, pure, Except.pure]
  have hrepo := repo_setTimer_success store row machineId d.num t hrow hname hlen hc0 hclock hnum
  unfold MachineService.setTimer
  simp only [hvm, Bool.not_true, Bool.false_eq_true, if_false, hdur, hfb, hrepo]

/-- C4. A reserve on an existing machine with a valid duration succeeds
regardless of any current reservation (no conflict error), storing
`timer_end_time = now + 60 * duration` and `updated_at = now`; a second
reserve before or after expiry wins entirely: the stored record ends at
`t2 + 60 * d2`. -/
theorem reserve_override_semantics (store : List MachineRow) (row : MachineRow)
    (machineId : Int) (d1 d2 : ℚ) (t1 t2 : Int)
    (hid : 0 < machineId)
    (hrow : store.find? (fun r => r.id == machineId) = some row)
    (hok : (Machine.fromRow row).isOk = true)
    (hdv1 : d1.den = 1 ∧ 1 ≤ d1 ∧ d1 ≤ 120)
    (hdv2 : d2.den = 1 ∧ 1 ≤ d2 ∧ d2 ≤ 120)
    (hclock1 : row.created_at ≤ t1) (ht12 : t1 ≤ t2) :
    ((MachineService.setTimer store machineId d1 t1).1 =
       store.map (fun r => if r.id == machineId then { r with timer_end_time := some (t1 + d1.num * 60), updated_at := t1 } else r) ∧
     ∃ st1, (MachineService.setTimer store machineId d1 t1).2 = .ok st1) ∧
    ((MachineService.setTimer (MachineService.setTimer store machineId d1 t1).1
        machineId d2 t2).1.find? (fun r => r.id == machineId) =
       some { row with timer_end_time := some (t2 + d2.num * 60), updated_at := t2 } ∧
     ∃ st2, (MachineService.setTimer (MachineService.setTimer store machineId d1 t1).1
        machineId d2 t2).2 = .ok st2) := by
  obtain ⟨hname, hlen, hc0, hu0, hcu⟩ := fromRow_ok_inv row hok
  have hpred' : row.id = machineId := by
    have h := List.find?_some hrow
    simpa using h
  have hpred : (row.id == machineId) = true := by simp [hpred']
  have h1 := backend_setTimer_success store row machineId d1 t1 hid hrow hok
    hdv1.1 hdv1.2.1 hdv1.2.2 hclock1
  have hnum1 : 1 ≤ d1.num := one_le_num_of_one_le hdv1.1 hdv1.2.1
  have hrtf1 : rowTimerField (some (t1 + d1.num * 60)) = some (t1 + d1.num * 60) := by
    simp [rowTimerField]
    omega
  have hrow1 : (store.map (fun r => if r.id == machineId then { r with timer_end_time := some (t1 + d1.num * 60), updated_at := t1 } else r)).find? (fun r => r.id == machineId) =
      some { row with timer_end_time := some (t1 + d1.num * 60), updated_at := t1 } := by
    rw [find?_map_setTimerUpdate, hrow]
    simp [hpred']
  have hval1 : Machine.validate ⟨row.id, row.name, some (t1 + d1.num * 60), row.created_at, t1⟩ = .ok () := by
    rw [validate_ok_iff]
    refine ⟨hname, hlen, ?_, hc0, ?_, ?_⟩
    · intro e he
      have he' : some (t1 + d1.num * 60) = some e := he
      injection he' with h
      omega
    · show (0 : Int) < t1
      omega
    · show row.created_at ≤ t1
      exact hclock1
  have hok1 : (Machine.fromRow { row with timer_end_time := some (t1 + d1.num * 60), updated_at := t1 }).isOk = true := by
    have hfr : Machine.fromRow { row with timer_end_time := some (t1 + d1.num * 60), updated_at := t1 } =
        .ok (⟨row.id, row.name, some (t1 + d1.num * 60), row.created_at, t1⟩ : Machine) := by
      unfold Machine.fromRow
      rw [fromData_ok_iff]
      constructor
      · show Machine.validate ⟨row.id, row.name, rowTimerField (some (t1 + d1.num * 60)), row.created_at, t1⟩ = .ok ()
        rw [hrtf1]
        exact hval1
      · show (⟨row.id, row.name, some (t1 + d1.num * 60), row.created_at, t1⟩ : Machine) =
          Machine.mk row.id row.name (rowTimerField (some (t1 + d1.num * 60))) row.created_at t1
        rw [hrtf1]
    rw [hfr]
    rfl
  have h2 := backend_setTimer_success
    (store.map (fun r => if r.id == machineId then { r with timer_end_time := some (t1 + d1.num * 60), updated_at := t1 } else r))
    { row with timer_end_time := some (t1 + d1.num * 60), updated_at := t1 }
    machineId d2 t2 hid hrow1 hok1 hdv2.1 hdv2.2.1 hdv2.2.2 (by show row.created_at ≤ t2; omega)
  refine ⟨⟨by rw [h1], ⟨_, by rw [h1]⟩⟩, ?_, ?_⟩
  · rw [h1]
    show (MachineService.setTimer _ machineId d2 t2).1.find? _ = _
    rw [h2]
    show (List.map _ _).find? _ = _
    rw [find?_map_setTimerUpdate, hrow1]
    simp [hpred']
  · rw [h1]
    show ∃ st2, (MachineService.setTimer _ machineId d2 t2).2 = .ok st2
    rw [h2]
    exact ⟨_, rfl⟩

/-- C4 witness: a machine already reserved until `940` is re-reserved at
`t1 = 1000` for 30 minutes and again at `t2 = 1200` for 45 minutes: no
conflict error, and the stored row ends at `1200 + 2700`. -/
theorem reserve_override_semantics_witness :
    ((MachineService.setTimer
        [{ id := 1, name := "W", timer_end_time := some 940, created_at := 500, updated_at := 600 }]
        1 30 1000).1 =
       [{ id := 1, name := "W", timer_end_time := some 2800, created_at := 500, updated_at := 1000 }]) ∧
    ((MachineService.setTimer (MachineService.setTimer
        [{ id := 1, name := "W", timer_end_time := some 940, created_at := 500, updated_at := 600 }]
        1 30 1000).1 1 45 1200).1.find? (fun r => r.id == 1) =
       some { id := 1, name := "W", timer_end_time := some 3900, created_at := 500, updated_at := 1200 }) := by
  have hok : (Machine.fromRow { id := 1, name := "W", timer_end_time := some 940, created_at := 500, updated_at := 600 }).isOk = true := by
    rw [show Machine.fromRow { id := 1, name := "W", timer_end_time := some 940, created_at := 500, updated_at := 600 } =
      Machine.fromData { id := 1, name := "W", timerEndTime := some 940, createdAt := 500, updatedAt := 600 } from rfl]
    rw [(fromData_ok_iff _ _).mpr ⟨(validate_ok_iff _).mpr (by decide), rfl⟩]
    rfl
  have h := reserve_override_semantics
    [{ id := 1, name := "W", timer_end_time := some 940, created_at := 500, updated_at := 600 }]
    { id := 1, name := "W", timer_end_time := some 940, created_at := 500, updated_at := 600 }
    1 30 45 1000 1200 (by norm_num) (by decide) hok
    (by norm_num) (by norm_num) (by norm_num) (by norm_num)
  constructor
  · rw [h.1.1]
    rfl
  · have h2 := h.2.1
    rw [h2]
    norm_num

/-- C5. Frontend `setTimer` fails with `InvalidDuration` for every
duration that is not an integer in `[1, 120]`, fails with `NotFound` for
every (positive-integer) id not in the store (with a valid duration),
succeeds otherwise, and every failure leaves the stored collection
untouched. -/
theorem reserve_validation_atomicity (store : List Machine) (machineId : Int)
    (d : ℚ) (nowMs : Int)
    (hvalid : ∀ m ∈ store, m.validate = .ok () ∧ storedMachineValid m = true)
    (hclock : ∀ m ∈ store, m.createdAt ≤ nowMs.fdiv 1000)
    (hsec : 0 < nowMs.fdiv 1000)
    (hid : 0 < machineId) :
    (¬(d.den = 1 ∧ 1 ≤ d ∧ d ≤ 120) →
      FrontendMachineService.setTimer store machineId d nowMs =
        ⟨store, .error .invalidDuration, []⟩) ∧
    ((d.den = 1 ∧ 1 ≤ d ∧ d ≤ 120) →
      store.find? (fun m => m.id == machineId) = none →
      FrontendMachineService.setTimer store machineId d nowMs =
        ⟨store, .error .notFound, []⟩) ∧
    ((d.den = 1 ∧ 1 ≤ d ∧ d ≤ 120) →
      ∀ data, store.find? (fun m => m.id == machineId) = some data →
      ∃ store' st, FrontendMachineService.setTimer store machineId d nowMs =
        ⟨store', .ok st, [.timerSet machineId st]⟩) ∧
    (∀ (s : List Machine) (i : Int) (q : ℚ) (t : Int),
      (FrontendMachineService.setTimer s i q t).outcome.isOk = false →
      (FrontendMachineService.setTimer s i q t).store = s) := by
  have hvm : validateMachineId machineId = true := by
    simp [validateMachineId]
    omega
  refine ⟨?_, ?_, ?_, ?_⟩
  · intro hbad
    cases hd : Machine.validateTimerDuration d with
    | ok u =>
      exact absurd ((validateTimerDuration_ok_iff d).mp (by rw [hd])) hbad
    | error e =>
      unfold FrontendMachineService.setTimer
      simp [hvm, hd]
  · intro hgood hnone
    have hdur : Machine.validateTimerDuration d = .ok () :=
      (validateTimerDuration_ok_iff d).mpr hgood
    unfold FrontendMachineService.setTimer
    simp [hvm, hdur, hnone]
  · intro hgood data hfind
    obtain ⟨store', hrep, heq⟩ := frontend_setTimer_success store machineId nowMs d data
      hfind hvalid (hclock data (List.mem_of_find?_eq_some hfind)) hsec
      hgood.1 hgood.2.1 hgood.2.2
    exact ⟨store', _, heq⟩
  · intro s i q t h
    unfold FrontendMachineService.setTimer at h ⊢
    by_cases h1 : validateMachineId i = true
    · simp only [h1, Bool.not_true] at h ⊢
      cases hd : Machine.validateTimerDuration q with
      | error e => simp [hd]
      | ok u =>
        obtain rfl : u = () := rfl
        simp only [hd] at h ⊢
        cases hf : s.find? (fun m => m.id == i) with
        | none => simp [hf]
        | some data =>
          simp only [hf] at h ⊢
          cases hfd : Machine.fromData data with
          | error e => simp [hfd]
          | ok machine =>
            simp only [hfd] at h ⊢
            cases hset : machine.setTimer q (t.fdiv 1000) with
            | error e => simp [hset]
            | ok m1 =>
              simp only [hset] at h ⊢
              cases hupd : LocalStorageService.updateMachine s m1 t with
              | error e => simp [hupd]
              | ok s2 => simp [hupd, Except.isOk, Except.toBool] at h
    · have h1' : validateMachineId i = false := by simpa using h1
      simp [h1']

/-- C5 witness: a one-machine store at `nowMs = 1000000`: duration `121`
fails with `InvalidDuration` leaving the store unchanged, and duration
`30` on the existing machine succeeds with one `timer_set` broadcast. -/
theorem reserve_validation_atomicity_witness :
    (FrontendMachineService.setTimer
        [{ id := 1, name := "W", timerEndTime := none, createdAt := 500, updatedAt := 600 }]
        1 121 1000000 =
      ⟨[{ id := 1, name := "W", timerEndTime := none, createdAt := 500, updatedAt := 600 }],
       .error .invalidDuration, []⟩) ∧
    (∃ store' st, FrontendMachineService.setTimer
        [{ id := 1, name := "W", timerEndTime := none, createdAt := 500, updatedAt := 600 }]
        1 30 1000000 = ⟨store', .ok st, [.timerSet 1 st]⟩) := by
  have hvalid : ∀ m ∈ [({ id := 1, name := "W", timerEndTime := none, createdAt := 500, updatedAt := 600 } : Machine)], m.validate = .ok () ∧ storedMachineValid m = true := by
    intro m hm
    rw [List.mem_singleton] at hm
    subst hm
    exact ⟨(validate_ok_iff _).mpr (by decide), by decide⟩
  constructor
  · exact (reserve_validation_atomicity _ 1 121 1000000 hvalid (by decide) (by decide)
      (by norm_num)).1 (by rintro ⟨-, -, h⟩; norm_num at h)
  · exact (reserve_validation_atomicity _ 1 30 1000000 hvalid (by decide) (by decide)
      (by norm_num)).2.2.1 (by norm_num)
      { id := 1, name := "W", timerEndTime := none, createdAt := 500, updatedAt := 600 }
      (by decide)

/-- C6. Frontend `clearTimer` is idempotent: releasing twice at the same
instant leaves exactly the store of releasing once, with the same
successful outcome; the final record has no `timerEndTime` and
`updatedAt` set to that instant; and a release — including of an
already-available machine — emits exactly one broadcast. -/
theorem release_idempotent (store : List Machine) (machineId nowMs : Int)
    (data : Machine)
    (hfind : store.find? (fun m => m.id == machineId) = some data)
    (hvalid : ∀ m ∈ store, m.validate = .ok () ∧ storedMachineValid m = true)
    (hclock : ∀ m ∈ store, m.createdAt ≤ nowMs.fdiv 1000)
    (hsec : 0 < nowMs.fdiv 1000) :
    (FrontendMachineService.clearTimer
        (FrontendMachineService.clearTimer store machineId nowMs).store machineId nowMs).store =
      (FrontendMachineService.clearTimer store machineId nowMs).store ∧
    (∃ st, (FrontendMachineService.clearTimer store machineId nowMs).outcome = .ok st ∧
      (FrontendMachineService.clearTimer
          (FrontendMachineService.clearTimer store machineId nowMs).store machineId
          nowMs).outcome = .ok st) ∧
    (FrontendMachineService.clearTimer store machineId nowMs).store.find?
        (fun m => m.id == machineId) =
      some { data with timerEndTime := none, updatedAt := nowMs } ∧
    (FrontendMachineService.clearTimer store machineId nowMs).broadcasts.length = 1 := by
  have hmem : data ∈ store := List.mem_of_find?_eq_some hfind
  have hdid' : data.id = machineId := by
    have h := List.find?_some hfind
    simpa using h
  subst hdid'
  have hms : 1000 ≤ nowMs := le_of_fdiv_1000_pos hsec
  obtain ⟨hidpos, hbl, htm, hcA, huA⟩ := (storedMachineValid_iff data).mp (hvalid data hmem).2
  obtain ⟨hn1, hn2, -, hc0, -, -⟩ := (validate_ok_iff data).mp (hvalid data hmem).1
  obtain ⟨store1, hrep1, heq1⟩ := frontend_clearTimer_success store data.id nowMs data
    hfind hvalid (hclock data hmem) hsec
  have hfind1 : store1.find? (fun m => m.id == data.id) =
      some ({ data with timerEndTime := none, updatedAt := nowMs } : Machine) :=
    find?_replaceFirst_self hrep1 (by simp)
  have hsecle : nowMs.fdiv 1000 ≤ nowMs := fdiv_1000_le_self (by omega)
  have hvalid1 : ∀ m ∈ store1, m.validate = .ok () ∧ storedMachineValid m = true := by
    intro x hx
    rcases replaceFirst_mem hrep1 x hx with rfl | hxm
    · constructor
      · rw [validate_ok_iff]
        refine ⟨hn1, hn2, by simp, hc0, ?_, ?_⟩
        · show (0 : Int) < nowMs
          omega
        · show data.createdAt ≤ nowMs
          have := hclock data hmem
          omega
      · rw [storedMachineValid_iff]
        refine ⟨hidpos, hbl, by simp, hcA, ?_⟩
        show (0 : Int) < nowMs
        omega
    · exact hvalid x hxm
  have hclock1 : ∀ m ∈ store1, m.createdAt ≤ nowMs.fdiv 1000 := by
    intro x hx
    rcases replaceFirst_mem hrep1 x hx with rfl | hxm
    · show data.createdAt ≤ nowMs.fdiv 1000
      exact hclock data hmem
    · exact hclock x hxm
  obtain ⟨store2, hrep2, heq2⟩ := frontend_clearTimer_success store1 data.id nowMs
    ({ data with timerEndTime := none, updatedAt := nowMs } : Machine)
    hfind1 hvalid1 (hclock1 _ (List.mem_of_find?_eq_some hfind1)) hsec
  have h12 : store2 = store1 := by
    have hself : replaceFirst store1 data.id
        ({ data with timerEndTime := none, updatedAt := nowMs } : Machine) = some store1 :=
      replaceFirst_self hfind1
    have h2 : replaceFirst store1 data.id
        ({ data with timerEndTime := none, updatedAt := nowMs } : Machine) = some store2 :=
      hrep2
    rw [hself] at h2
    injection h2 with hv
    exact hv.symm
  rw [h12] at heq2
  refine ⟨?_, ⟨({ data with timerEndTime := none, updatedAt := nowMs.fdiv 1000 } : Machine).toStatus (nowMs.fdiv 1000), ?_, ?_⟩, ?_, ?_⟩
  · rw [heq1]
    show (FrontendMachineService.clearTimer store1 data.id nowMs).store = store1
    rw [heq2]
  · rw [heq1]
  · rw [heq1]
    show (FrontendMachineService.clearTimer store1 data.id nowMs).outcome = _
    rw [heq2]
  · rw [heq1]
    exact hfind1
  · rw [heq1]
    rfl

/-- C6 witness: a one-machine store (timer at `940`) released at
`nowMs = 1000000`: the final record is timerless with `updatedAt`
`1000000`, and releasing again leaves the store identical. -/
theorem release_idempotent_witness :
    (FrontendMachineService.clearTimer
        (FrontendMachineService.clearTimer
          [{ id := 1, name := "W", timerEndTime := some 940, createdAt := 500, updatedAt := 600 }]
          1 1000000).store 1 1000000).store =
      (FrontendMachineService.clearTimer
        [{ id := 1, name := "W", timerEndTime := some 940, createdAt := 500, updatedAt := 600 }]
        1 1000000).store ∧
    (FrontendMachineService.clearTimer
        [{ id := 1, name := "W", timerEndTime := some 940, createdAt := 500, updatedAt := 600 }]
        1 1000000).store.find? (fun m => m.id == 1) =
      some { id := 1, name := "W", timerEndTime := none, createdAt := 500,
             updatedAt := 1000000 } := by
  have hvalid : ∀ m ∈ [({ id := 1, name := "W", timerEndTime := some 940, createdAt := 500, updatedAt := 600 } : Machine)], m.validate = .ok () ∧ storedMachineValid m = true := by
    intro m hm
    rw [List.mem_singleton] at hm
    subst hm
    exact ⟨(validate_ok_iff _).mpr (by decide), by decide⟩
  have h := release_idempotent
    [{ id := 1, name := "W", timerEndTime := some 940, createdAt := 500, updatedAt := 600 }]
    1 1000000
    { id := 1, name := "W", timerEndTime := some 940, createdAt := 500, updatedAt := 600 }
    (by decide) hvalid (by decide) (by decide)
  exact ⟨h.1, h.2.2.1⟩

/-- C10. Reading the machine collection is total and self-healing: an
absent stored value, unparsable JSON, or parsed data failing
`validateMachinesData` all yield the 5-machine default list (and the
embedding is a total function — the source catches every exception);
only a well-formed stored list is returned as-is. -/
theorem getMachines_selfhealing (t0 : Int) :
    (LocalStorageService.getMachines .absent t0 =
        LocalStorageService.DEFAULT_MACHINES t0) ∧
    (LocalStorageService.getMachines .unparsable t0 =
        LocalStorageService.DEFAULT_MACHINES t0) ∧
    (∀ v, LocalStorageService.validateMachinesData v = false →
      LocalStorageService.getMachines (.parsed v) t0 =
        LocalStorageService.DEFAULT_MACHINES t0) ∧
    (∀ entries, LocalStorageService.validateMachinesData (.array entries) = true →
      LocalStorageService.getMachines (.parsed (.array entries)) t0 =
        entries.map coerceEntry) ∧
    (LocalStorageService.DEFAULT_MACHINES t0).length = 5 := by
  refine ⟨rfl, rfl, ?_, ?_, rfl⟩
  · intro v hv
    simp [LocalStorageService.getMachines, hv]
  · intro entries hv
    simp [LocalStorageService.getMachines, hv]

/-- C10 witness: a stored value that parses to a non-array yields the
defaults; a well-formed one-entry array is returned as-is. -/
theorem getMachines_selfhealing_witness :
    LocalStorageService.validateMachinesData .notArray = false ∧
    LocalStorageService.getMachines (.parsed .notArray) 7 =
      LocalStorageService.DEFAULT_MACHINES 7 ∧
    LocalStorageService.validateMachinesData
      (.array [.obj (some 1) (some "X") none (some 5) (some 6)]) = true ∧
    LocalStorageService.getMachines
        (.parsed (.array [.obj (some 1) (some "X") none (some 5) (some 6)])) 7 =
      [{ id := 1, name := "X", timerEndTime := none, createdAt := 5, updatedAt := 6 }] := by
  refine ⟨rfl, (getMachines_selfhealing 7).2.2.1 .notArray rfl, by decide, ?_⟩
  rw [(getMachines_selfhealing 7).2.2.2.1 _ (by decide)]
  rfl

end UniCycle
